import Mathlib

/-!
Verification of the response-code scraping scripts
(`misc/scrape_response_codes.py`, python 2, PDF-text variant, and
`misc/scrape_response_codes_from_msdn.py`, python 3, MSDN-HTML variant).

Strings are modelled by Lean `String` (a wrapper around `List Char`); all
string operations used by the scripts (strip, regex substitutions on fixed
patterns, startswith/endswith, slicing) are defined below on the underlying
character lists, following the Python semantics.
-/

namespace Scrape

/-- The whitespace characters recognised by Python `str.strip()`. -/
def isPySpace (c : Char) : Bool :=
  c = ' ' || c = '\t' || c = '\n' || c = '\r' || c = '\x0b' || c = '\x0c'

/-- `str.strip()`: drop leading and trailing whitespace. -/
def stripL (l : List Char) : List Char :=
  ((l.dropWhile isPySpace).reverse.dropWhile isPySpace).reverse

/-- `s.strip()` on strings. -/
def pyStrip (s : String) : String := ⟨stripL s.data⟩

/-- `re.sub(' +', ' ', ·)` on character lists: every maximal run of spaces is
replaced by a single space (the last space of the run is kept, all earlier
spaces of the run are dropped). -/
def collapseL : List Char → List Char
  | [] => []
  | [c] => [c]
  | a :: b :: rest =>
    if a = ' ' ∧ b = ' ' then collapseL (b :: rest) else a :: collapseL (b :: rest)

/-- `re.sub(' +', ' ', s)` on strings. -/
def collapseSpaces (s : String) : String := ⟨collapseL s.data⟩

/-- `re.sub('- ', '', ·)` on character lists: remove every non-overlapping
occurrence of the two-character pattern `"- "`, scanning left to right. -/
def removeDSL : List Char → List Char
  | [] => []
  | [c] => [c]
  | a :: b :: rest =>
    if a = '-' ∧ b = ' ' then removeDSL rest else a :: removeDSL (b :: rest)

/-- `re.sub('- ', '', s)` on strings. -/
def removeDashSpace (s : String) : String := ⟨removeDSL s.data⟩

/-- The character in an optional position is not Python whitespace. -/
def charOk : Option Char → Bool
  | none => true
  | some c => !isPySpace c

/-- The first character, if any, is not Python whitespace. -/
def headOk (l : List Char) : Bool := charOk l.head?

/-- The last character, if any, is not Python whitespace. -/
def lastOk (l : List Char) : Bool := charOk l.getLast?

/-- No two adjacent space characters anywhere in the list. -/
def noTwoSpaces : List Char → Bool
  | a :: b :: rest => !(a == ' ' && b == ' ') && noTwoSpaces (b :: rest)
  | _ => true

/-- No occurrence of the two-character pattern `"- "` in the list. -/
def noDashSpace : List Char → Bool
  | a :: b :: rest => !(a == '-' && b == ' ') && noDashSpace (b :: rest)
  | _ => true

/-- Every whitespace character in the list is a plain space (no tabs,
newlines, carriage returns, vertical tabs or form feeds). -/
def OnlySpace (l : List Char) : Prop := ∀ c ∈ l, isPySpace c = true → c = ' '

instance (l : List Char) : Decidable (OnlySpace l) :=
  inferInstanceAs (Decidable (∀ c ∈ l, isPySpace c = true → c = ' '))

/-- The full sanitisation pipeline applied to the `message` and `comments`
fields: strip, collapse space runs, remove `"- "` (in source order). -/
def sanL (l : List Char) : List Char := removeDSL (collapseL (stripL l))

/-- `suffix.isSuffixOf`-based model of Python `s.endswith(suf)`. -/
def sEndsWith (s suf : String) : Bool := suf.data.isSuffixOf s.data

/-- Model of Python `s.startswith(pre)`. -/
def sStartsWith (s pre : String) : Bool := pre.data.isPrefixOf s.data

/-- Python `s[n:]`. -/
def sDrop (s : String) (n : Nat) : String := ⟨s.data.drop n⟩

/-- Python `s[:-1]`. -/
def sDropLast (s : String) : String := ⟨s.data.dropLast⟩

/-- Python `len(s)` (number of characters). -/
def sLen (s : String) : Nat := s.data.length

/-- One record scraped from the PDF text
(class `Data` of `scrape_response_codes.py`).  The `comment` field models the
attribute of the same name assigned at yield time by `interpret`
(line `content.comment = content.comments.strip()`). -/
@[ext]
structure Data where
  response_code : String
  message : String := ""
  applicable_methods : String := ""
  comments : String := ""
  comment : String := ""
deriving DecidableEq

/-- `Data.sanitize` of `scrape_response_codes.py`:
strip every field; additionally collapse space runs and remove `"- "`
(line-break hyphenation) in `message` and `comments` only. -/
def Data.sanitize (d : Data) : Data :=
  { d with
    response_code := pyStrip d.response_code
    message := removeDashSpace (collapseSpaces (pyStrip d.message))
    applicable_methods := pyStrip d.applicable_methods
    comments := removeDashSpace (collapseSpaces (pyStrip d.comments)) }

/-- First pass of `convert_camel_case`: `re.sub('(.)([A-Z][a-z]+)', r'\1_\2', ·)`.
The regex scanner is modelled with a fuel argument (fuel `l.length` always
suffices, every step consumes at least one character): at each position, a
match requires any character except a newline, then an ASCII uppercase
letter followed by at least one ASCII lowercase letter; the greedy `[a-z]+`
consumes the whole lowercase run and scanning resumes after the match. -/
def pass1Fuel : Nat → List Char → List Char
  | 0, l => l
  | _ + 1, [] => []
  | _ + 1, [c] => [c]
  | fuel + 1, a :: b :: rest =>
    if a ≠ '\n' ∧ b.isUpper ∧ rest.head?.any Char.isLower then
      a :: '_' :: b :: (rest.takeWhile Char.isLower ++ pass1Fuel fuel (rest.dropWhile Char.isLower))
    else
      a :: pass1Fuel fuel (b :: rest)

/-- `re.sub('(.)([A-Z][a-z]+)', r'\1_\2', s)` (the "first cap" pass). -/
def sub_first_cap (s : String) : String := ⟨pass1Fuel s.data.length s.data⟩

/-- Second pass: `re.sub('([a-z0-9])([A-Z])', r'\1_\2', ·)`; both characters of
a match are consumed, so scanning resumes after the uppercase letter. -/
def sub_all_cap : List Char → List Char
  | [] => []
  | [c] => [c]
  | a :: b :: rest =>
    if (a.isLower ∨ a.isDigit) ∧ b.isUpper then a :: '_' :: b :: sub_all_cap rest
    else a :: sub_all_cap (b :: rest)

/-- Python `str.lower()` (the scraped keys are ASCII). -/
def toLowerStr (s : String) : String := ⟨s.data.map Char.toLower⟩

/-- `convert_camel_case` (identical in both scripts): two regex passes, then
lowercase the whole string. -/
def convert_camel_case (name : String) : String :=
  toLowerStr ⟨sub_all_cap (sub_first_cap name).data⟩

/-- A Python 2 `\w` character: `[a-zA-Z0-9_]`. -/
def isWordChar (c : Char) : Bool := c.isUpper || c.isLower || c.isDigit || c = '_'

/-- `is_response_code_line`: `re.search(r"^Error\w+$|^NoError$", line)`.
Anchored alternation: the whole line is `"Error"` followed by at least one
word character, or the whole line is exactly `"NoError"`. -/
def is_response_code_line (s : String) : Bool :=
  (sStartsWith s "Error" && !(s.data.drop 5).isEmpty && (s.data.drop 5).all isWordChar)
    || s == "NoError"

/-- The mutable variables of `interpret` between two loop iterations:
`content` and the three state booleans.  The booleans are not mutually
exclusive in the source (a record-key line sets `in_message_line` without
clearing the other two); the `elif` chain gives `in_message_line` priority
over `in_methods_line` over `in_comments_line`, which the `step` function
reproduces literally. -/
structure MState where
  content : Option Data
  in_message_line : Bool
  in_methods_line : Bool
  in_comments_line : Bool
deriving DecidableEq

/-- State at the top of `interpret`'s loop. -/
def initState : MState := ⟨none, false, false, false⟩

/-- One iteration of the `for line in lines` loop of `interpret`.
`next_line` is `lines[count]` (`none` for the last line, and note that the
Python look-ahead `if next_line:` is also falsy on an empty next line).
Returns the successor state and the record yielded by this iteration, if any.
The `none`-content sub-branches are unreachable from `initState` (Python
would raise `AttributeError` there); they leave the state unchanged. -/
def step (s : MState) (line : String) (next_line : Option String) : MState × Option Data :=
  if is_response_code_line line then
    ({ s with content := some { response_code := line }, in_message_line := true }, none)
  else if s.in_message_line then
    match s.content with
    | none => (s, none)
    | some c =>
      if sEndsWith line "." || sEndsWith line "various messages" || line == "N/A" then
        ({ s with content := some { c with message := c.message ++ line },
                  in_message_line := false, in_methods_line := true }, none)
      else
        ({ s with content := some { c with message := c.message ++ line ++ " " } }, none)
  else if s.in_methods_line then
    match s.content with
    | none => (s, none)
    | some c =>
      let c' := if c.applicable_methods == "" then { c with applicable_methods := line }
                else { c with applicable_methods := c.applicable_methods ++ line ++ " " }
      let stay : Bool :=
        match next_line with
        | none => false
        | some nl => (nl != "") && ((decide (sLen nl < 31) || sEndsWith nl ")") && !sEndsWith nl ".")
      ({ s with content := some c', in_methods_line := stay, in_comments_line := !stay }, none)
  else if s.in_comments_line then
    match s.content with
    | none => (s, none)
    | some c =>
      if line == "" then
        let c' := { c with comment := pyStrip c.comments }
        ({ s with content := some c', in_comments_line := false }, some c')
      else if sStartsWith line "-" then
        let c1 := { c with comments := c.comments ++ "\n" ++ "* " ++ sDrop line 1 }
        let c2 := if sEndsWith c1.comments "." then { c1 with comments := sDropLast c1.comments }
                  else c1
        ({ s with content := some c2 }, none)
      else
        ({ s with content := some { c with comments := c.comments ++ line ++ " " } }, none)
  else (s, none)

/-- Run the loop of `interpret` over the remaining lines, collecting the
yielded records in order.  The look-ahead for the current line is the head of
the remaining lines (`none` at the last line, as in the source). -/
def runAux : MState → List String → List Data
  | _, [] => []
  | s, line :: rest =>
    match step s line rest.head? with
    | (s', some d) => d :: runAux s' rest
    | (s', none) => runAux s' rest

/-- `interpret`, as a function from the sequence of input lines to the ordered
list of yielded records. -/
def interpret (lines : List String) : List Data := runAux initState lines

/-- The machine state after consuming all lines (no record is yielded at end
of input in the source: the generator simply returns). -/
def runState : MState → List String → MState
  | s, [] => s
  | s, line :: rest => runState (step s line rest.head?).1 rest

/-- The effective comment-collection phase: by the `elif` priority,
the comments branch runs only when the message and methods flags are off. -/
def inCommentsPhase (s : MState) : Bool :=
  !s.in_message_line && !s.in_methods_line && s.in_comments_line

/-- A loop iteration yields a record exactly when the machine is effectively
in comment collection with a record in progress and the line is blank. -/
def yieldsOn (s : MState) (line : String) : Bool :=
  inCommentsPhase s && s.content.isSome && (line == "")

/-- Number of loop iterations satisfying `yieldsOn` along the run. -/
def countYields : MState → List String → Nat
  | _, [] => 0
  | s, line :: rest =>
    (if yieldsOn s line then 1 else 0) + countYields (step s line rest.head?).1 rest

/-- One record scraped from the MSDN page
(class `ResponseCode` of `scrape_response_codes_from_msdn.py`). -/
structure ResponseCode where
  response_code : String
  description : String
deriving DecidableEq

/-- Python `print(s)`: the string followed by a newline. -/
def printStr (s : String) : String := s ++ "\n"

instance {ε α : Type} [DecidableEq ε] [DecidableEq α] : DecidableEq (Except ε α) := fun x y =>
  match x, y with
  | .ok a, .ok b =>
    if h : a = b then .isTrue (by rw [h]) else .isFalse (fun he => h (Except.ok.inj he))
  | .error a, .error b =>
    if h : a = b then .isTrue (by rw [h]) else .isFalse (fun he => h (Except.error.inj he))
  | .ok _, .error _ => .isFalse (fun he => Except.noConfusion he)
  | .error _, .ok _ => .isFalse (fun he => Except.noConfusion he)

/-- Python `text.split()`: whitespace-separated chunks, empty chunks dropped. -/
def splitWSAux : List Char → List Char → List (List Char)
  | [], acc => if acc.isEmpty then [] else [acc.reverse]
  | c :: rest, acc =>
    if isPySpace c then
      if acc.isEmpty then splitWSAux rest [] else acc.reverse :: splitWSAux rest []
    else splitWSAux rest (c :: acc)

/-- Greedy line filling: model of the external `textwrap.wrap(block, width,
initial_indent=pref, subsequent_indent=pref)` used by the emitters (an
external standard-library collaborator; long-word breaking and hyphen
splitting are not modelled).  Words are packed greedily so that the indented
line stays within `width`. -/
def fillAux (width : Nat) (pre : List Char) : List Char → List (List Char) → List (List Char)
  | cur, [] => [pre ++ cur]
  | cur, w :: ws =>
    if (pre ++ cur ++ ' ' :: w).length ≤ width then fillAux width pre (cur ++ ' ' :: w) ws
    else (pre ++ cur) :: fillAux width pre w ws

/-- `textwrap.wrap` model on a single block; the empty block wraps to `[]`. -/
def wrapIndent (width : Nat) (pre : String) (block : String) : List String :=
  match splitWSAux block.data [] with
  | [] => []
  | w :: ws => (fillAux width pre.data w ws).map (fun l => (⟨l⟩ : String))

/-- Split a character list at each `'\n'`. -/
def splitNL : List Char → List Char → List String
  | [], acc => [⟨acc.reverse⟩]
  | c :: rest, acc =>
    if c = '\n' then (⟨acc.reverse⟩ : String) :: splitNL rest [] else splitNL rest (c :: acc)

/-- Python `str.splitlines()` (the comment fields only contain `'\n'`). -/
def splitLines (s : String) : List String :=
  if s.data.isEmpty then []
  else
    let parts := splitNL s.data []
    if s.data.getLast? = some '\n' then parts.dropLast else parts

/-- `print_line_with_continuation` of `scrape_response_codes.py`: one `print`
of the newline-join of the wrapped blocks of `line`. -/
def print_line_with_continuation (line : String) : String :=
  printStr (String.intercalate "\n"
    ((splitLines line).map (fun block =>
      String.intercalate "\n" (wrapIndent 80 ("        " ++ "// ") block))))

/-- The per-item body of `print_cxx_enum` (python 2 variant): comment block,
then the converted member name, with a comma and a blank line after every
member except the last. -/
def enumItemsOut : List Data → String
  | [] => ""
  | [item] =>
    print_line_with_continuation item.comments ++
    printStr ("        " ++ convert_camel_case item.response_code)
  | item :: rest =>
    print_line_with_continuation item.comments ++
    printStr ("        " ++ convert_camel_case item.response_code ++ ",") ++
    printStr "" ++ enumItemsOut rest

/-- `print_cxx_enum` of `scrape_response_codes.py`: everything it prints. -/
def print_cxx_enum_out (items : List Data) : String :=
  printStr ("    " ++ "enum class response_code") ++
  printStr ("    " ++ "\x7b") ++
  enumItemsOut items ++
  printStr ("    " ++ "\x7d;")

/-- `print_cxx_str_to_enum_function` of `scrape_response_codes.py`.
`items.pop()` removes the last record from the caller's list (and raises
`IndexError` on an empty list, modelled by `none`); the function returns the
printed text together with the list as the caller sees it afterwards. -/
def print_cxx_str_to_enum_function (items : List Data) : Option (String × List Data) :=
  match items.getLast? with
  | none => none
  | some last =>
    let rest := items.dropLast
    let i := "    "
    let out :=
      printStr (i ++ "inline response_code") ++
      printStr (i ++ "string_to_response_code_enum(const std::string& str)") ++
      printStr (i ++ "\x7b") ++
      printStr (i ++ i ++ "static const std::unordered_map<std::string, response_code> m\x7b") ++
      String.join (rest.map (fun item =>
        printStr (i ++ i ++ i ++ "\x7b \"" ++ item.response_code ++ "\", response_code::"
          ++ convert_camel_case item.response_code ++ " \x7d,"))) ++
      printStr (i ++ i ++ i ++ "\x7b \"" ++ last.response_code ++ "\", response_code::"
        ++ convert_camel_case last.response_code ++ " \x7d") ++
      printStr (i ++ i ++ "\x7d;") ++
      printStr (i ++ i ++ "auto it = m.find(str);") ++
      printStr (i ++ i ++ "if (it == m.end())") ++
      printStr (i ++ i ++ "\x7b") ++
      printStr (i ++ i ++ i ++ "throw exchange_error(\"Unrecognized response code\");") ++
      printStr (i ++ i ++ "\x7d") ++
      printStr (i ++ i ++ "return it->second();") ++
      printStr (i ++ "\x7d")
    some (out, rest)

/-- Denotation of the C++ lookup emitted by the python 2
`print_cxx_str_to_enum_function`: an `unordered_map` initialised with one
entry per record (for duplicate keys the first entry wins), `m.find(str)`,
and a `throw exchange_error("Unrecognized response code")` when the key is
absent. -/
def string_to_response_code_enum (items : List Data) (str : String) : Except String String :=
  match items.find? (fun item => item.response_code == str) with
  | some item => .ok (convert_camel_case item.response_code)
  | none => .error "Unrecognized response code"

/-- `print_cxx_str_to_enum_function` of `scrape_response_codes_from_msdn.py`:
everything it prints (one `if (str == "key") return ...;` block per record,
then an unconditional `throw`). -/
def print_cxx_str_to_enum_msdn_out (items : List ResponseCode) : String :=
  let i := "    "
  printStr (i ++ "inline response_code str_to_response_code(const std::string& str)") ++
  printStr (i ++ "\x7b") ++
  String.join (items.map (fun item =>
    printStr (i ++ i ++ "if (str == \"" ++ item.response_code ++ "\")") ++
    printStr (i ++ i ++ "\x7b") ++
    printStr (i ++ i ++ i ++ "return response_code::"
      ++ convert_camel_case item.response_code ++ ";") ++
    printStr (i ++ i ++ "\x7d"))) ++
  printStr (i ++ i ++ "throw exception(\"Unrecognized response code: \" + str);") ++
  printStr (i ++ "\x7d")

/-- Denotation of the C++ function emitted by the python 3
`print_cxx_str_to_enum_function`: the `if` chain is tried in record order,
the first matching key returns its converted enum member, and the fall
through is an unconditional `throw`. -/
def str_to_response_code (items : List ResponseCode) (str : String) : Except String String :=
  match items with
  | [] => .error ("Unrecognized response code: " ++ str)
  | item :: rest =>
    if str = item.response_code then .ok (convert_camel_case item.response_code)
    else str_to_response_code rest str

/-- `print_enum_to_str_function` of `scrape_response_codes_from_msdn.py`:
everything it prints (a `switch` with one `case`/`return` per record and a
throwing `default`). -/
def print_enum_to_str_out (items : List ResponseCode) : String :=
  let i := "    "
  printStr (i ++ "inline std::string enum_to_str(response_code code)") ++
  printStr (i ++ "\x7b") ++
  printStr (i ++ i ++ "switch (code)") ++
  printStr (i ++ i ++ "\x7b") ++
  String.join (items.map (fun item =>
    printStr (i ++ i ++ "case response_code::" ++ convert_camel_case item.response_code ++ ":") ++
    printStr (i ++ i ++ i ++ "return \"" ++ item.response_code ++ "\";"))) ++
  printStr (i ++ i ++ "default:") ++
  printStr (i ++ i ++ i ++ "throw exception(\"Unrecognized response code\");") ++
  printStr (i ++ i ++ "\x7d") ++
  printStr (i ++ "\x7d")

/-- Denotation of the emitted `switch`: the first `case` whose member name
matches returns the original key, the `default` throws. -/
def enum_to_str (items : List ResponseCode) (code : String) : Except String String :=
  match items with
  | [] => .error "Unrecognized response code"
  | item :: rest =>
    if code = convert_camel_case item.response_code then .ok item.response_code
    else enum_to_str rest code

/-! ### Lemmas on the string operations of the sanitizer -/

/-- Induction principle following the two-element patterns of `collapseL`,
`removeDSL`, `noTwoSpaces` and `noDashSpace`. -/
theorem twoStepInduction (motive : List Char → Prop) (h0 : motive [])
    (h1 : ∀ c, motive [c])
    (h2 : ∀ a b rest, motive rest → motive (b :: rest) → motive (a :: b :: rest)) :
    ∀ l, motive l := by
  have key : ∀ l, motive l ∧ ∀ c, motive (c :: l) := by
    intro l
    induction l with
    | nil => exact ⟨h0, h1⟩
    | cons b rest ih => exact ⟨ih.2 b, fun a => h2 a b rest ih.1 (ih.2 b)⟩
  exact fun l => (key l).1

theorem dropWhile_eq_append (p : Char → Bool) (l : List Char) :
    ∃ t, t ++ l.dropWhile p = l := by
  induction l with
  | nil => exact ⟨[], rfl⟩
  | cons c rest ih =>
    by_cases h : p c
    · obtain ⟨t, ht⟩ := ih
      exact ⟨c :: t, by simp [List.dropWhile_cons, h, ht]⟩
    · exact ⟨[], by simp [List.dropWhile_cons, h]⟩

theorem mem_of_mem_dropWhile {c : Char} {p : Char → Bool} {l : List Char}
    (h : c ∈ l.dropWhile p) : c ∈ l := by
  obtain ⟨t, ht⟩ := dropWhile_eq_append p l
  rw [← ht]
  exact List.mem_append_right t h

theorem headOk_dropWhile (l : List Char) : headOk (l.dropWhile isPySpace) = true := by
  induction l with
  | nil => rfl
  | cons c rest ih =>
    by_cases h : isPySpace c
    · simpa [List.dropWhile_cons, h] using ih
    · simp [List.dropWhile_cons, h, headOk, charOk]

theorem headOk_reverse (l : List Char) : headOk l.reverse = lastOk l := by
  unfold headOk lastOk
  rw [List.head?_reverse]

theorem lastOk_reverse (l : List Char) : lastOk l.reverse = headOk l := by
  unfold headOk lastOk
  rw [List.getLast?_reverse]

theorem stripL_headOk (l : List Char) : headOk (stripL l) = true := by
  have hw : headOk (l.dropWhile isPySpace) = true := headOk_dropWhile l
  obtain ⟨t, ht⟩ := dropWhile_eq_append isPySpace (l.dropWhile isPySpace).reverse
  have hkey : stripL l ++ t.reverse = l.dropWhile isPySpace := by
    unfold stripL
    rw [← List.reverse_append, ht, List.reverse_reverse]
  cases e : stripL l with
  | nil => rfl
  | cons c r =>
    rw [e, List.cons_append] at hkey
    rw [← hkey] at hw
    simpa [headOk, charOk] using hw

theorem stripL_lastOk (l : List Char) : lastOk (stripL l) = true := by
  unfold stripL
  rw [lastOk_reverse]
  exact headOk_dropWhile _

theorem dropWhile_of_headOk {l : List Char} (h : headOk l = true) :
    l.dropWhile isPySpace = l := by
  cases l with
  | nil => rfl
  | cons c r =>
    have hc : isPySpace c = false := by simpa [headOk, charOk] using h
    simp [List.dropWhile_cons, hc]

theorem stripL_fix {l : List Char} (h1 : headOk l = true) (h2 : lastOk l = true) :
    stripL l = l := by
  unfold stripL
  rw [dropWhile_of_headOk h1, dropWhile_of_headOk (by rw [headOk_reverse]; exact h2),
    List.reverse_reverse]

theorem stripL_idem (l : List Char) : stripL (stripL l) = stripL l :=
  stripL_fix (stripL_headOk l) (stripL_lastOk l)

theorem stripL_subset {c : Char} {l : List Char} (h : c ∈ stripL l) : c ∈ l := by
  unfold stripL at h
  rw [List.mem_reverse] at h
  have h2 := mem_of_mem_dropWhile h
  rw [List.mem_reverse] at h2
  exact mem_of_mem_dropWhile h2

theorem collapseL_cons2 (a b : Char) (rest : List Char) :
    collapseL (a :: b :: rest) =
      if a = ' ' ∧ b = ' ' then collapseL (b :: rest) else a :: collapseL (b :: rest) := rfl

theorem noTwoSpaces_cons2 (a b : Char) (rest : List Char) :
    noTwoSpaces (a :: b :: rest) = (!(a == ' ' && b == ' ') && noTwoSpaces (b :: rest)) := rfl

theorem noDashSpace_cons2 (a b : Char) (rest : List Char) :
    noDashSpace (a :: b :: rest) = (!(a == '-' && b == ' ') && noDashSpace (b :: rest)) := rfl

theorem removeDSL_cons2 (a b : Char) (rest : List Char) :
    removeDSL (a :: b :: rest) =
      if a = '-' ∧ b = ' ' then removeDSL rest else a :: removeDSL (b :: rest) := rfl

theorem noTwoSpaces_tail {a : Char} {t : List Char} (h : noTwoSpaces (a :: t) = true) :
    noTwoSpaces t = true := by
  cases t with
  | nil => rfl
  | cons b rest =>
    rw [noTwoSpaces_cons2, Bool.and_eq_true] at h
    exact h.2

theorem collapseL_head? (l : List Char) : (collapseL l).head? = l.head? := by
  induction l using twoStepInduction with
  | h0 => rfl
  | h1 c => rfl
  | h2 a b rest ih1 ih2 =>
    rw [collapseL_cons2]
    by_cases h : a = ' ' ∧ b = ' '
    · rw [if_pos h, ih2, h.1, h.2]
      rfl
    · rw [if_neg h]
      simp

theorem collapseL_ne_nil (b : Char) (rest : List Char) : collapseL (b :: rest) ≠ [] := by
  intro e
  have h := collapseL_head? (b :: rest)
  rw [e] at h
  simp at h

theorem collapseL_getLast? (l : List Char) : (collapseL l).getLast? = l.getLast? := by
  induction l using twoStepInduction with
  | h0 => rfl
  | h1 c => rfl
  | h2 a b rest ih1 ih2 =>
    rw [collapseL_cons2]
    by_cases h : a = ' ' ∧ b = ' '
    · rw [if_pos h, ih2, List.getLast?_cons_cons]
    · rw [if_neg h]
      obtain ⟨y, ys, e⟩ := List.exists_cons_of_ne_nil (collapseL_ne_nil b rest)
      rw [e, List.getLast?_cons_cons, ← e, ih2, List.getLast?_cons_cons]

theorem collapseL_noTwo (l : List Char) : noTwoSpaces (collapseL l) = true := by
  induction l using twoStepInduction with
  | h0 => rfl
  | h1 c => rfl
  | h2 a b rest ih1 ih2 =>
    rw [collapseL_cons2]
    by_cases h : a = ' ' ∧ b = ' '
    · rw [if_pos h]
      exact ih2
    · rw [if_neg h]
      obtain ⟨y, ys, e⟩ := List.exists_cons_of_ne_nil (collapseL_ne_nil b rest)
      have hy : y = b := by
        have hh := collapseL_head? (b :: rest)
        rw [e] at hh
        simpa using hh
      rw [e, noTwoSpaces_cons2, Bool.and_eq_true]
      refine ⟨?_, by rw [← e]; exact ih2⟩
      subst hy
      simpa using not_and_or.mp h

theorem collapseL_fix : ∀ l : List Char, noTwoSpaces l = true → collapseL l = l := by
  intro l
  induction l using twoStepInduction with
  | h0 => intro _; rfl
  | h1 c => intro _; rfl
  | h2 a b rest ih1 ih2 =>
    intro h
    rw [noTwoSpaces_cons2, Bool.and_eq_true] at h
    rw [collapseL_cons2, if_neg (not_and_or.mpr (by simpa using h.1)), ih2 h.2]

theorem collapseL_subset : ∀ l : List Char, ∀ c ∈ collapseL l, c ∈ l := by
  intro l
  induction l using twoStepInduction with
  | h0 => intro c hc; exact absurd hc (by simp [collapseL])
  | h1 d => intro c hc; exact hc
  | h2 a b rest ih1 ih2 =>
    intro c hc
    rw [collapseL_cons2] at hc
    by_cases h : a = ' ' ∧ b = ' '
    · rw [if_pos h] at hc
      exact List.mem_cons_of_mem a (ih2 c hc)
    · rw [if_neg h] at hc
      rcases List.mem_cons.mp hc with h1 | h1
      · exact h1 ▸ List.mem_cons_self a (b :: rest)
      · exact List.mem_cons_of_mem a (ih2 c h1)

theorem removeDSL_head_space : ∀ l : List Char, noTwoSpaces l = true →
    (removeDSL l).head? = some ' ' → l.head? = some ' ' := by
  intro l
  induction l using twoStepInduction with
  | h0 => intro _ h2; exact h2
  | h1 c => intro _ h2; exact h2
  | h2 a b rest ih1 ih2 =>
    intro hn hh
    rw [removeDSL_cons2] at hh
    by_cases h : a = '-' ∧ b = ' '
    · rw [if_pos h] at hh
      have hrest : rest.head? = some ' ' := ih1 (noTwoSpaces_tail (noTwoSpaces_tail hn)) hh
      obtain ⟨r, rs, hr⟩ : ∃ r rs, rest = r :: rs := by
        cases rest with
        | nil => simp at hrest
        | cons r rs => exact ⟨r, rs, rfl⟩
      subst hr
      have hrsp : r = ' ' := by simpa using hrest
      have hb := noTwoSpaces_tail hn
      rw [noTwoSpaces_cons2, Bool.and_eq_true] at hb
      rw [h.2, hrsp] at hb
      simp at hb
    · rw [if_neg h] at hh
      have ha : a = ' ' := by simpa using hh
      simp [ha]

theorem removeDSL_noTwo : ∀ l : List Char, noTwoSpaces l = true →
    noTwoSpaces (removeDSL l) = true := by
  intro l
  induction l using twoStepInduction with
  | h0 => intro _; rfl
  | h1 c => intro _; rfl
  | h2 a b rest ih1 ih2 =>
    intro hn
    rw [removeDSL_cons2]
    by_cases hab : a = '-' ∧ b = ' '
    · rw [if_pos hab]
      exact ih1 (noTwoSpaces_tail (noTwoSpaces_tail hn))
    · rw [if_neg hab]
      cases e : removeDSL (b :: rest) with
      | nil => rfl
      | cons y ys =>
        rw [noTwoSpaces_cons2, Bool.and_eq_true]
        refine ⟨?_, by rw [← e]; exact ih2 (noTwoSpaces_tail hn)⟩
        by_cases hy : y = ' '
        · have hb : (b :: rest).head? = some ' ' := by
            apply removeDSL_head_space (b :: rest) (noTwoSpaces_tail hn)
            rw [e, hy]
            rfl
          have hb' : b = ' ' := by simpa using hb
          rw [noTwoSpaces_cons2, Bool.and_eq_true] at hn
          have ha : ¬a = ' ' := by
            intro ha
            rw [ha, hb'] at hn
            simp at hn
          simp [ha]
        · simp [hy]

theorem removeDSL_noDash : ∀ l : List Char, noTwoSpaces l = true →
    noDashSpace (removeDSL l) = true := by
  intro l
  induction l using twoStepInduction with
  | h0 => intro _; rfl
  | h1 c => intro _; rfl
  | h2 a b rest ih1 ih2 =>
    intro hn
    rw [removeDSL_cons2]
    by_cases hab : a = '-' ∧ b = ' '
    · rw [if_pos hab]
      exact ih1 (noTwoSpaces_tail (noTwoSpaces_tail hn))
    · rw [if_neg hab]
      cases e : removeDSL (b :: rest) with
      | nil => rfl
      | cons y ys =>
        rw [noDashSpace_cons2, Bool.and_eq_true]
        refine ⟨?_, by rw [← e]; exact ih2 (noTwoSpaces_tail hn)⟩
        by_cases hy : y = ' '
        · have hb : (b :: rest).head? = some ' ' := by
            apply removeDSL_head_space (b :: rest) (noTwoSpaces_tail hn)
            rw [e, hy]
            rfl
          have hb' : b = ' ' := by simpa using hb
          have ha : ¬a = '-' := fun ha => hab ⟨ha, hb'⟩
          simp [ha]
        · simp [hy]

theorem removeDSL_fix : ∀ l : List Char, noDashSpace l = true → removeDSL l = l := by
  intro l
  induction l using twoStepInduction with
  | h0 => intro _; rfl
  | h1 c => intro _; rfl
  | h2 a b rest ih1 ih2 =>
    intro h
    rw [noDashSpace_cons2, Bool.and_eq_true] at h
    rw [removeDSL_cons2, if_neg (not_and_or.mpr (by simpa using h.1)), ih2 h.2]

theorem removeDSL_nil : ∀ l : List Char, removeDSL l = [] →
    l = [] ∨ l.getLast? = some ' ' := by
  intro l
  induction l using twoStepInduction with
  | h0 => intro _; exact Or.inl rfl
  | h1 c => intro h; exact absurd h (by simp [removeDSL])
  | h2 a b rest ih1 ih2 =>
    intro h
    rw [removeDSL_cons2] at h
    by_cases hab : a = '-' ∧ b = ' '
    · rw [if_pos hab] at h
      rcases ih1 h with hnil | hlast
      · subst hnil
        right
        rw [List.getLast?_cons_cons, hab.2]
        rfl
      · right
        obtain ⟨r, rs, hr⟩ : ∃ r rs, rest = r :: rs := by
          cases rest with
          | nil => simp at hlast
          | cons r rs => exact ⟨r, rs, rfl⟩
        subst hr
        rw [List.getLast?_cons_cons, List.getLast?_cons_cons]
        exact hlast
    · rw [if_neg hab] at h
      exact absurd h (by simp)

theorem removeDSL_lastOk : ∀ l : List Char, lastOk l = true →
    lastOk (removeDSL l) = true := by
  intro l
  induction l using twoStepInduction with
  | h0 => intro _; rfl
  | h1 c => intro h; exact h
  | h2 a b rest ih1 ih2 =>
    intro h
    rw [removeDSL_cons2]
    by_cases hab : a = '-' ∧ b = ' '
    · rw [if_pos hab]
      apply ih1
      cases rest with
      | nil =>
        exfalso
        unfold lastOk at h
        rw [List.getLast?_cons_cons, hab.2] at h
        simp [charOk, isPySpace] at h
      | cons r rs =>
        unfold lastOk at h ⊢
        rwa [List.getLast?_cons_cons, List.getLast?_cons_cons] at h
    · rw [if_neg hab]
      cases e : removeDSL (b :: rest) with
      | nil =>
        rcases removeDSL_nil (b :: rest) e with hnil | hlast
        · exact absurd hnil (by simp)
        · exfalso
          unfold lastOk at h
          rw [List.getLast?_cons_cons, hlast] at h
          simp [charOk, isPySpace] at h
      | cons y ys =>
        have hcons : lastOk (removeDSL (b :: rest)) = true := by
          apply ih2
          unfold lastOk at h ⊢
          rwa [List.getLast?_cons_cons] at h
        rw [e] at hcons
        unfold lastOk at hcons ⊢
        rwa [List.getLast?_cons_cons]

theorem removeDSL_subset : ∀ l : List Char, ∀ c ∈ removeDSL l, c ∈ l := by
  intro l
  induction l using twoStepInduction with
  | h0 => intro c hc; exact hc
  | h1 d => intro c hc; exact hc
  | h2 a b rest ih1 ih2 =>
    intro c hc
    rw [removeDSL_cons2] at hc
    by_cases hab : a = '-' ∧ b = ' '
    · rw [if_pos hab] at hc
      exact List.mem_cons_of_mem a (List.mem_cons_of_mem b (ih1 c hc))
    · rw [if_neg hab] at hc
      rcases List.mem_cons.mp hc with h1 | h1
      · exact h1 ▸ List.mem_cons_self a (b :: rest)
      · exact List.mem_cons_of_mem a (ih2 c h1)

theorem removeDSL_headOk : ∀ l : List Char, OnlySpace l → noTwoSpaces l = true →
    headOk l = true → headOk (removeDSL l) = true := by
  intro l hos hnts hh
  cases e : removeDSL l with
  | nil => rfl
  | cons c r =>
    unfold headOk charOk
    rw [List.head?_cons]
    cases hic : isPySpace c with
    | false => simp [hic]
    | true =>
      exfalso
      have hmem : c ∈ l := removeDSL_subset l c (by rw [e]; exact List.mem_cons_self c r)
      have hc' : c = ' ' := hos c hmem hic
      have hl : l.head? = some ' ' := by
        apply removeDSL_head_space l hnts
        rw [e, hc']
        rfl
      unfold headOk at hh
      rw [hl] at hh
      simp [charOk, isPySpace] at hh

theorem pyStrip_idem (s : String) : pyStrip (pyStrip s) = pyStrip s :=
  congrArg String.mk (stripL_idem s.data)

theorem sanL_idem (l : List Char) (hos : OnlySpace l) : sanL (sanL l) = sanL l := by
  have hw1 : headOk (stripL l) = true := stripL_headOk l
  have hw2 : lastOk (stripL l) = true := stripL_lastOk l
  have hwos : OnlySpace (stripL l) := fun c hc hsp => hos c (stripL_subset hc) hsp
  have hu1 : headOk (collapseL (stripL l)) = true := by
    unfold headOk
    rw [collapseL_head?]
    exact hw1
  have hu2 : lastOk (collapseL (stripL l)) = true := by
    unfold lastOk
    rw [collapseL_getLast?]
    exact hw2
  have hu3 : noTwoSpaces (collapseL (stripL l)) = true := collapseL_noTwo _
  have huos : OnlySpace (collapseL (stripL l)) :=
    fun c hc hsp => hwos c (collapseL_subset _ c hc) hsp
  have hr1 : headOk (sanL l) = true := removeDSL_headOk _ huos hu3 hu1
  have hr2 : lastOk (sanL l) = true := removeDSL_lastOk _ hu2
  have hr3 : noTwoSpaces (sanL l) = true := removeDSL_noTwo _ hu3
  have hr4 : noDashSpace (sanL l) = true := removeDSL_noDash _ hu3
  show removeDSL (collapseL (stripL (sanL l))) = sanL l
  rw [stripL_fix hr1 hr2, collapseL_fix _ hr3, removeDSL_fix _ hr4]

/-! ### Theorems for the claims -/

/-- C4 (counterexample): `Data.sanitize` is not idempotent.  On a message
whose `"- "` occurrence hides a tab, the first pass removes the `"- "` and
exposes leading whitespace that only the second pass strips:
`"- \tx"` sanitizes to `"\tx"`, and sanitizing again gives `"x"`. -/
theorem sanitize_not_idempotent_cex :
    (Data.sanitize (Data.sanitize ⟨"ErrorX", "- \tx", "", "", ""⟩)).message = "x" ∧
    (Data.sanitize ⟨"ErrorX", "- \tx", "", "", ""⟩).message = "\tx" ∧
    ("\tx" : String) ≠ "x" := by decide

/-- C4 (amended): `Data.sanitize` is idempotent on every record whose
`message` and `comments` fields contain no whitespace characters other than
plain spaces (tabs, newlines and the like can be exposed by the `"- "`
removal and are only stripped by a second pass). -/
theorem sanitize_idem_only_space (d : Data) (h1 : OnlySpace d.message.data)
    (h2 : OnlySpace d.comments.data) : d.sanitize.sanitize = d.sanitize := by
  cases d with
  | mk rc msg am cm cmt =>
    refine Data.ext ?_ ?_ ?_ ?_ rfl
    · exact pyStrip_idem _
    · exact congrArg String.mk (sanL_idem msg.data h1)
    · exact pyStrip_idem _
    · exact congrArg String.mk (sanL_idem cm.data h2)

/-- Witness for C4 (amended) at a concrete record. -/
theorem sanitize_idem_only_space_witness :
    OnlySpace (" a  b- c." : String).data ∧ OnlySpace ("x  - y" : String).data ∧
    Data.sanitize (Data.sanitize ⟨" ErrorX ", " a  b- c.", " m ", "x  - y", ""⟩) =
      Data.sanitize ⟨" ErrorX ", " a  b- c.", " m ", "x  - y", ""⟩ :=
  ⟨by decide, by decide, sanitize_idem_only_space _ (by decide) (by decide)⟩

/-- C5 (counterexample): the sanitizer does not collapse space runs in every
field: the `applicable_methods` (applicability) field is only stripped, so a
double space inside it survives sanitization. -/
theorem sanitize_no_collapse_methods_cex :
    (Data.sanitize ⟨"ErrorX", "", "a  b", "", ""⟩).applicable_methods = "a  b" ∧
    ("a  b" : String) ≠ "a b" := by decide

/-- C5 (amended): the sanitizer strips leading/trailing whitespace from every
field, but collapses runs of spaces (and removes `"- "`) only in the
description (`message`) and `comments` fields; `response_code` and
`applicable_methods` are stripped only.  Consequently the sanitized key and
applicability start and end with non-whitespace, and the sanitized message
and comments contain no two adjacent spaces. -/
theorem sanitize_field_normalization (d : Data) :
    d.sanitize.response_code = pyStrip d.response_code ∧
    d.sanitize.applicable_methods = pyStrip d.applicable_methods ∧
    d.sanitize.message = removeDashSpace (collapseSpaces (pyStrip d.message)) ∧
    d.sanitize.comments = removeDashSpace (collapseSpaces (pyStrip d.comments)) ∧
    d.sanitize.comment = d.comment ∧
    headOk d.sanitize.response_code.data = true ∧
    lastOk d.sanitize.response_code.data = true ∧
    headOk d.sanitize.applicable_methods.data = true ∧
    lastOk d.sanitize.applicable_methods.data = true ∧
    noTwoSpaces d.sanitize.message.data = true ∧
    noTwoSpaces d.sanitize.comments.data = true ∧
    lastOk d.sanitize.message.data = true ∧
    lastOk d.sanitize.comments.data = true :=
  ⟨rfl, rfl, rfl, rfl, rfl,
   stripL_headOk _, stripL_lastOk _, stripL_headOk _, stripL_lastOk _,
   removeDSL_noTwo _ (collapseL_noTwo _), removeDSL_noTwo _ (collapseL_noTwo _),
   removeDSL_lastOk _ (show lastOk (collapseL (stripL d.message.data)) = true by
     unfold lastOk; rw [collapseL_getLast?]; exact stripL_lastOk _),
   removeDSL_lastOk _ (show lastOk (collapseL (stripL d.comments.data)) = true by
     unfold lastOk; rw [collapseL_getLast?]; exact stripL_lastOk _)⟩

/-- C10: in every machine state, a line matching the record-key rule takes
precedence over all other transition rules: the step yields nothing, replaces
the record in progress by a fresh record whose key is the line (all other
fields empty), and turns the description flag on.  The record previously in
progress is no longer part of the state, so it can never be yielded. -/
theorem key_line_precedence (s : MState) (line : String) (next_line : Option String)
    (h : is_response_code_line line = true) :
    step s line next_line =
      ({ s with content := some { response_code := line }, in_message_line := true }, none) := by
  unfold step
  rw [if_pos h]

/-- Witness for C10: a key line arriving while a record is mid-collection in
the comments phase discards that record and starts a fresh one. -/
theorem key_line_precedence_witness :
    is_response_code_line "ErrorAccessDenied" = true ∧
    step ⟨some ⟨"NoError", "N/A", "GetItem", "x ", ""⟩, false, false, true⟩
        "ErrorAccessDenied" (some "Access is") =
      (⟨some ⟨"ErrorAccessDenied", "", "", "", ""⟩, true, false, true⟩, none) :=
  ⟨by decide, key_line_precedence _ _ _ (by decide)⟩

/-- C3 (counterexample): a completing description line is appended without
the separating space: with input key `NoError` and description line `N/A`
the stored description is `"N/A"`, not `"" ++ "N/A" ++ " "`. -/
theorem description_no_trailing_space_cex :
    (interpret ["NoError", "N/A", "CreateItem", ""]).map Data.message = ["N/A"] ∧
    ("N/A" : String) ≠ "" ++ "N/A" ++ " " := by decide

/-- C3 (amended): in the description state, a non-key line is appended to the
description and yields nothing; the description completes — moving to the
applicability (methods) state — exactly when the line ends with `"."`, ends
with `"various messages"`, or equals `"N/A"`, and the completing line is
appended without a separating space, while a non-completing line is appended
with a trailing space and the machine stays in the description state. -/
theorem description_append_transition (s : MState) (c : Data) (line : String)
    (nl : Option String) (hk : is_response_code_line line = false)
    (hm : s.in_message_line = true) (hc : s.content = some c) :
    ((sEndsWith line "." || sEndsWith line "various messages" || line == "N/A") = true →
      step s line nl =
        ({ s with content := some { c with message := c.message ++ line },
                  in_message_line := false, in_methods_line := true }, none)) ∧
    ((sEndsWith line "." || sEndsWith line "various messages" || line == "N/A") = false →
      step s line nl =
        ({ s with content := some { c with message := c.message ++ line ++ " " } }, none)) := by
  constructor <;> intro hcond <;> unfold step <;> rw [hk] <;> simp [hm, hc, hcond]

/-- Witness for C3 (amended): the completing line `"N/A"` is appended with no
trailing space and the machine moves to the methods state. -/
theorem description_append_transition_witness :
    step ⟨some ⟨"NoError", "", "", "", ""⟩, true, false, false⟩ "N/A" none =
      (⟨some ⟨"NoError", "N/A", "", "", ""⟩, false, true, false⟩, none) := by
  have h := (description_append_transition ⟨some ⟨"NoError", "", "", "", ""⟩, true, false, false⟩
    ⟨"NoError", "", "", "", ""⟩ "N/A" none (by decide) rfl rfl).1 (by decide)
  exact h

/-- C2 (counterexample): with an empty next line the look-ahead in the
methods (applicability) state advances to the comments state, although the
empty next line is shorter than 31 characters and does not end with a
period — the Python guard `if next_line:` is falsy on the empty string. -/
theorem methods_lookahead_empty_next_cex :
    (step ⟨some ⟨"NoError", "N/A", "", "", ""⟩, false, true, false⟩
        "CreateItem" (some "")).1.in_methods_line = false ∧
    (step ⟨some ⟨"NoError", "N/A", "", "", ""⟩, false, true, false⟩
        "CreateItem" (some "")).1.in_comments_line = true ∧
    sLen "" < 31 ∧ sEndsWith "" "." = false := by decide

/-- C2 (amended): in the methods (applicability) state, after consuming the
current line the machine remains in that state for the next line if and only
if there is a non-empty next line that is shorter than 31 characters or ends
with `")"`, and does not end with `"."`; otherwise it advances to the
comments state. -/
theorem methods_lookahead (s : MState) (c : Data) (line : String) (next_line : Option String)
    (hk : is_response_code_line line = false) (hm : s.in_message_line = false)
    (ht : s.in_methods_line = true) (hc : s.content = some c) :
    (step s line next_line).1.in_message_line = false ∧
    ((step s line next_line).1.in_methods_line = true ↔
      ∃ nl, next_line = some nl ∧ nl ≠ "" ∧
        (sLen nl < 31 ∨ sEndsWith nl ")" = true) ∧ sEndsWith nl "." = false) ∧
    ((step s line next_line).1.in_methods_line = false →
      (step s line next_line).1.in_comments_line = true) := by
  unfold step
  rw [hk]
  simp only [Bool.false_eq_true, if_false, hm, ht, if_true, hc]
  cases next_line with
  | none => simp
  | some nl =>
    by_cases h0 : nl = ""
    · simp [h0]
    · simp [h0, Bool.and_eq_true, Bool.or_eq_true, bne_iff_ne, decide_eq_true_eq,
        Bool.not_eq_true', and_assoc]
      intro h
      by_cases hp : sEndsWith nl "." = true
      · exact Or.inr hp
      · refine Or.inl ⟨?_, ?_⟩
        · rcases Nat.lt_or_ge (sLen nl) 31 with hl | hl
          · exact absurd (h (Or.inl hl)) hp
          · exact hl
        · cases hq : sEndsWith nl ")" with
          | false => rfl
          | true => exact absurd (h (Or.inr hq)) hp

/-- Witness for C2 (amended): a short, period-free, non-empty next line keeps
the machine in the methods state. -/
theorem methods_lookahead_witness :
    (step ⟨some ⟨"NoError", "N/A", "", "", ""⟩, false, true, false⟩
        "CreateItem" (some "GetItem")).1.in_methods_line = true :=
  (methods_lookahead _ ⟨"NoError", "N/A", "", "", ""⟩ "CreateItem" (some "GetItem")
    (by decide) rfl rfl rfl).2.1.mpr
    ⟨"GetItem", rfl, by decide, Or.inl (by decide), by decide⟩

/-- A loop iteration of `interpret` yields a record exactly when `yieldsOn`
holds: the machine is effectively in comment collection, a record is in
progress, and the line is blank. -/
theorem step_yield (s : MState) (line : String) (nl : Option String) :
    ((step s line nl).2).isSome = yieldsOn s line := by
  obtain ⟨content, hm, ht, hc⟩ := s
  unfold step yieldsOn inCommentsPhase
  by_cases hk : is_response_code_line line = true
  · have hne : (line == "") = false := by
      cases hl : line == "" with
      | false => rfl
      | true =>
        have he : line = "" := by simpa using hl
        rw [he] at hk
        exact absurd hk (by decide)
    simp [hk, hne]
  · rw [Bool.not_eq_true] at hk
    cases hm <;> cases ht <;> cases hc <;> cases content <;> simp [hk] <;>
      first
        | rfl
        | (split <;> first
            | simp_all
            | (split <;> simp_all))

theorem runAux_length : ∀ (lines : List String) (s : MState),
    (runAux s lines).length = countYields s lines := by
  intro lines
  induction lines with
  | nil => intro s; rfl
  | cons line rest ih =>
    intro s
    have hy := step_yield s line rest.head?
    simp only [runAux, countYields]
    cases e : step s line rest.head? with
    | mk s' out =>
      rw [e] at hy
      cases out with
      | some d => simp [← hy, ih s', Nat.add_comm]
      | none => simp [← hy, ih s']

/-- C1 (amended): a record is finalized and yielded exactly when a blank line
is consumed while the machine is effectively in comment collection with a
record in progress; consequently the number of yielded records equals the
number of such blank lines along the run.  A record superseded by a new
record-key line, or still in progress at end of input, is dropped without
being yielded (see the counterexample for the end-of-input case). -/
theorem yield_count_blank_comments :
    (∀ (s : MState) (line : String) (nl : Option String),
      ((step s line nl).2).isSome = yieldsOn s line) ∧
    (∀ (lines : List String) (s : MState),
      (runAux s lines).length = countYields s lines) ∧
    (∀ lines : List String, (interpret lines).length = countYields initState lines) :=
  ⟨step_yield, runAux_length, fun lines => runAux_length lines initState⟩

/-- C1 (counterexample): the input has exactly one recognized record-key line
(`"NoError"`) and its record reaches the comment-collection state before end
of input (final state flags `(false, false, true)`), yet `interpret` yields
no record at all: nothing is finalized at end of input. -/
theorem interpret_eoi_drop_cex :
    interpret ["NoError", "N/A", "GetItem"] = [] ∧
    is_response_code_line "NoError" = true ∧
    is_response_code_line "N/A" = false ∧
    is_response_code_line "GetItem" = false ∧
    runState initState ["NoError", "N/A", "GetItem"] =
      ⟨some ⟨"NoError", "N/A", "GetItem", "", ""⟩, false, false, true⟩ := by decide

/-- C6: the identifier normalizer is the two-pass rule — first
`re.sub('(.)([A-Z][a-z]+)', r'\1_\2', ·)` (a separator before an
uppercase-starting multi-letter capitalized run), then
`re.sub('([a-z0-9])([A-Z])', r'\1_\2', ·)` (a separator between a
lowercase-or-digit and an uppercase), then lowercasing — and on
`"ErrorAccessDenied"` it returns `"error_access_denied"` (the intermediate
results of the two passes are also pinned down). -/
theorem convert_camel_case_two_pass :
    (∀ name : String,
      convert_camel_case name = toLowerStr ⟨sub_all_cap (sub_first_cap name).data⟩) ∧
    sub_first_cap "ErrorAccessDenied" = "Error_AccessDenied" ∧
    (⟨sub_all_cap ("Error_AccessDenied" : String).data⟩ : String) = "Error_Access_Denied" ∧
    convert_camel_case "ErrorAccessDenied" = "error_access_denied" ∧
    convert_camel_case "NoError" = "no_error" :=
  ⟨fun _ => rfl, by decide, by decide, by decide, by decide⟩

/-- C7 (counterexample): the round trip fails when two distinct keys collide
on the same normalized identifier.  `"ErrorAB"` and `"ErrorAb"` both
normalize to `"error_ab"`; the key `"ErrorAb"` appears in the generated
string-to-enum table and maps to its normalized member, but the generated
enum-to-string function returns the first colliding key `"ErrorAB"`, not
`"ErrorAb"`. -/
theorem roundtrip_collision_cex :
    convert_camel_case "ErrorAB" = convert_camel_case "ErrorAb" ∧
    ("ErrorAb" ∈ ([⟨"ErrorAB", "d"⟩, ⟨"ErrorAb", "d"⟩] : List ResponseCode).map
      ResponseCode.response_code) ∧
    str_to_response_code [⟨"ErrorAB", "d"⟩, ⟨"ErrorAb", "d"⟩] "ErrorAb" =
      .ok (convert_camel_case "ErrorAb") ∧
    enum_to_str [⟨"ErrorAB", "d"⟩, ⟨"ErrorAb", "d"⟩] (convert_camel_case "ErrorAb") =
      .ok "ErrorAB" ∧
    "ErrorAB" ≠ "ErrorAb" := by decide

theorem str_to_enum_mem : ∀ (items : List ResponseCode) (k : String),
    k ∈ items.map ResponseCode.response_code →
    str_to_response_code items k = .ok (convert_camel_case k) := by
  intro items
  induction items with
  | nil => intro k h; exact absurd h (by simp)
  | cons item rest ih =>
    intro k h
    unfold str_to_response_code
    by_cases he : k = item.response_code
    · rw [if_pos he, he]
    · rw [if_neg he]
      apply ih
      rcases List.mem_map.mp h with ⟨a, ha, hak⟩
      rcases List.mem_cons.mp ha with h1 | h1
      · exact absurd (h1 ▸ hak).symm he
      · exact List.mem_map.mpr ⟨a, h1, hak⟩

theorem enum_to_str_inj : ∀ (items : List ResponseCode) (k : String),
    k ∈ items.map ResponseCode.response_code →
    (∀ a ∈ items, ∀ b ∈ items,
      convert_camel_case a.response_code = convert_camel_case b.response_code →
      a.response_code = b.response_code) →
    enum_to_str items (convert_camel_case k) = .ok k := by
  intro items
  induction items with
  | nil => intro k h _; exact absurd h (by simp)
  | cons item rest ih =>
    intro k hmem hinj
    obtain ⟨b, hb, hbk⟩ : ∃ b ∈ item :: rest, b.response_code = k := by
      rcases List.mem_map.mp hmem with ⟨a, ha, hak⟩
      exact ⟨a, ha, hak⟩
    unfold enum_to_str
    by_cases he : convert_camel_case k = convert_camel_case item.response_code
    · rw [if_pos he]
      have heq := hinj item (List.mem_cons_self item rest) b hb (by rw [hbk]; exact he.symm)
      rw [heq, hbk]
    · rw [if_neg he]
      apply ih
      · rcases List.mem_cons.mp hb with h1 | h1
        · exact absurd (by rw [← hbk, ← h1]) he
        · exact List.mem_map.mpr ⟨b, h1, hbk⟩
      · intro a ha b' hb'
        exact hinj a (List.mem_cons_of_mem item ha) b' (List.mem_cons_of_mem item hb')

/-- C7 (amended): for every record key `k` appearing in the generated
string-to-enum table, the table maps `k` to the member named
`convert_camel_case k`, and — provided distinct keys in the table have
distinct normalized identifiers — the generated enum-to-string function maps
that member back to `k`. -/
theorem roundtrip_injective (items : List ResponseCode) (k : String)
    (hmem : k ∈ items.map ResponseCode.response_code)
    (hinj : ∀ a ∈ items, ∀ b ∈ items,
      convert_camel_case a.response_code = convert_camel_case b.response_code →
      a.response_code = b.response_code) :
    str_to_response_code items k = .ok (convert_camel_case k) ∧
    enum_to_str items (convert_camel_case k) = .ok k :=
  ⟨str_to_enum_mem items k hmem, enum_to_str_inj items k hmem hinj⟩

/-- Witness for C7 (amended) on a collision-free two-record table. -/
theorem roundtrip_injective_witness :
    str_to_response_code [⟨"NoError", "d"⟩, ⟨"ErrorAccessDenied", "d"⟩] "ErrorAccessDenied" =
      .ok (convert_camel_case "ErrorAccessDenied") ∧
    enum_to_str [⟨"NoError", "d"⟩, ⟨"ErrorAccessDenied", "d"⟩]
      (convert_camel_case "ErrorAccessDenied") = .ok "ErrorAccessDenied" :=
  roundtrip_injective [⟨"NoError", "d"⟩, ⟨"ErrorAccessDenied", "d"⟩] "ErrorAccessDenied"
    (by decide) (by decide)

/-- C8: both generated string-to-enum lookups end in an unconditional error
path: an input string equal to none of the emitted record keys reaches the
`throw` of an explicit "Unrecognized response code" error, and no
enumeration value is returned for it (for the python 2 variant the emitter
itself requires a non-empty record list: `items.pop()` fails on `[]`). -/
theorem lookup_unrecognized_throws :
    (∀ (items : List ResponseCode) (s : String),
      s ∉ items.map ResponseCode.response_code →
      str_to_response_code items s = .error ("Unrecognized response code: " ++ s)) ∧
    (∀ (items : List Data) (s : String), items ≠ [] →
      s ∉ items.map Data.response_code →
      string_to_response_code_enum items s = .error "Unrecognized response code") := by
  constructor
  · intro items
    induction items with
    | nil => intro s _; rfl
    | cons item rest ih =>
      intro s hs
      unfold str_to_response_code
      rw [if_neg (fun he => hs (List.mem_map.mpr ⟨item, List.mem_cons_self item rest, he.symm⟩))]
      exact ih s (fun hmem => hs (by
        rcases List.mem_map.mp hmem with ⟨a, ha, hak⟩
        exact List.mem_map.mpr ⟨a, List.mem_cons_of_mem item ha, hak⟩))
  · intro items s _ hs
    unfold string_to_response_code_enum
    have hnone : items.find? (fun item => item.response_code == s) = none := by
      rw [List.find?_eq_none]
      intro item hitem hbeq
      exact hs (List.mem_map.mpr ⟨item, hitem, by simpa using hbeq⟩)
    rw [hnone]

/-- Witness for C8 at concrete tables and a key absent from both. -/
theorem lookup_unrecognized_throws_witness :
    str_to_response_code [⟨"NoError", "d"⟩, ⟨"ErrorAccessDenied", "d"⟩] "Bogus" =
      .error ("Unrecognized response code: " ++ "Bogus") ∧
    string_to_response_code_enum [⟨"NoError", "", "", "", ""⟩] "Bogus" =
      .error "Unrecognized response code" :=
  ⟨lookup_unrecognized_throws.1 [⟨"NoError", "d"⟩, ⟨"ErrorAccessDenied", "d"⟩] "Bogus"
      (by decide),
   lookup_unrecognized_throws.2 [⟨"NoError", "", "", "", ""⟩] "Bogus" (by decide) (by decide)⟩

/-- C9 (counterexample): the python 2 string-to-enum emitter mutates its
input list: `items.pop()` removes the last record, so after emitting, the
caller's two-record list has become a one-record list. -/
theorem emitter_pop_mutates_cex :
    (print_cxx_str_to_enum_function
        [⟨"NoError", "", "", "", ""⟩, ⟨"ErrorAccessDenied", "", "", "", ""⟩]).map Prod.snd =
      some [⟨"NoError", "", "", "", ""⟩] ∧
    ([⟨"NoError", "", "", "", ""⟩] : List Data) ≠
      [⟨"NoError", "", "", "", ""⟩, ⟨"ErrorAccessDenied", "", "", "", ""⟩] := by decide

/-- C9 (amended): the emitters mutate no record and produce only text, but
the python 2 string-to-enum emitter removes the last record from the input
list (it fails on an empty list): afterwards the caller's list is exactly
`items.dropLast`, one element shorter, and an unchanged initial segment of
the original list. -/
theorem emitter_pop_removes_last (items : List Data) (h : items ≠ []) :
    ∃ out, print_cxx_str_to_enum_function items = some (out, items.dropLast) ∧
      items.dropLast.length + 1 = items.length ∧
      ∃ t, items.dropLast ++ t = items := by
  have h1 : items.getLast? = some (items.getLast h) := List.getLast?_eq_getLast items h
  have h2 : items.length ≠ 0 := fun he => h (List.eq_nil_of_length_eq_zero he)
  unfold print_cxx_str_to_enum_function
  rw [h1]
  exact ⟨_, rfl, by rw [List.length_dropLast]; omega,
    ⟨[items.getLast h], List.dropLast_append_getLast h⟩⟩

/-- Witness for C9 (amended) at a concrete one-record list. -/
theorem emitter_pop_removes_last_witness :
    (([⟨"NoError", "", "", "", ""⟩] : List Data) ≠ []) ∧
    (∃ out, print_cxx_str_to_enum_function [⟨"NoError", "", "", "", ""⟩] =
        some (out, ([⟨"NoError", "", "", "", ""⟩] : List Data).dropLast) ∧
      ([⟨"NoError", "", "", "", ""⟩] : List Data).dropLast.length + 1 =
        ([⟨"NoError", "", "", "", ""⟩] : List Data).length ∧
      ∃ t, ([⟨"NoError", "", "", "", ""⟩] : List Data).dropLast ++ t =
        [⟨"NoError", "", "", "", ""⟩]) :=
  ⟨by decide, emitter_pop_removes_last _ (by decide)⟩

end Scrape
